import Mathlib

/-!
Verification of the route-registration layer of `go-echowr` (`server.go`).

The repository's own code — the `Kind` enumeration, the `RegisterRouters`
route-spec builder, and `Server.RegisterRouters` / `registerRouters` /
`registerMethod` — is embedded shallowly below, definition by definition.
The external HTTP engine (echo) is out of scope of the repository and is
modelled at the capability surface the spec's §6 fixes for the Engine
Adapter: a list of bound routes, a top-level middleware chain, and a list
of created child scopes with their middleware chains.  Handlers and
middlewares are opaque in this layer, so they are represented by numeric
identifiers.  Go maps iterate in an unspecified order; a method map is
represented by an association list, whose order stands for one concrete
iteration order.
-/

/-- Go `unicode.IsSpace`, the set `strings.TrimSpace` strips: the Latin-1
whitespace (space, tab, newline, vertical tab, form feed, carriage return,
next line U+0085, no-break space U+00A0) plus the rest of Unicode
White_Space: U+1680, U+2000..U+200A, U+2028, U+2029, U+202F, U+205F and
U+3000. -/
def goIsSpace (c : Char) : Bool :=
  c = ' ' || c = '\t' || c = '\n' || c = Char.ofNat 11 || c = Char.ofNat 12 ||
  c = '\r' || c = Char.ofNat 0x85 || c = Char.ofNat 0xA0 ||
  c = Char.ofNat 0x1680 ||
  (0x2000 ≤ c.toNat && c.toNat ≤ 0x200A) ||
  c = Char.ofNat 0x2028 || c = Char.ofNat 0x2029 ||
  c = Char.ofNat 0x202F || c = Char.ofNat 0x205F || c = Char.ofNat 0x3000

/-- Go `strings.TrimSpace`: drop whitespace from both ends. -/
def goTrimSpace (s : String) : String :=
  ⟨((s.data.dropWhile goIsSpace).reverse.dropWhile goIsSpace).reverse⟩

/-- `isPrefixL p l` holds when `p` is a prefix of `l`. -/
def isPrefixL : List Char → List Char → Bool
  | [], _ => true
  | _ :: _, [] => false
  | a :: as, b :: bs => a = b && isPrefixL as bs

/-- `containsL sub l` holds when `sub` occurs contiguously inside `l`. -/
def containsL (sub : List Char) : List Char → Bool
  | [] => sub.isEmpty
  | c :: rest => isPrefixL sub (c :: rest) || containsL sub rest

/-- Go `strings.Contains s sub`: does `s` contain `sub` as a substring. -/
def goContains (s sub : String) : Bool :=
  containsL sub.data s.data

/-- `Kind.String`'s lookup table, in declaration order of the `Kind`
constants `ROOT, V1, V2, V3, DEV, API, DOCS`. -/
def kindNames : List String :=
  ["root", "v1", "v2", "v3", "dev", "api", "docs"]

/-- `Kind.String`: `[...]string{...}[k]`.  A Go `Kind` is an `int`; indexing
the seven-element array out of range panics, modelled as `none`. -/
def kindString (k : Int) : Option String :=
  if 0 ≤ k ∧ k < 7 then some (kindNames.getD k.toNat "") else none

/-- `RegisterRouter`: a path together with its method → handler map
(handlers are opaque, kept as numeric identifiers). -/
structure RegisterRouter where
  Path : String
  Methods : List (String × Nat)
deriving Repr, DecidableEq

/-- `RegisterRouters`: a fixed path prefix plus the appended routers. -/
structure RegisterRouters where
  PathFixed : String
  Routers : List RegisterRouter
deriving Repr, DecidableEq

/-- `NewRouters`: the zero value, empty prefix and no routers. -/
def NewRouters : RegisterRouters := ⟨"", []⟩

/-- `RegisterRouters.AddRouter`: append an entry with the path verbatim. -/
def RegisterRouters.AddRouter (r : RegisterRouters) (path : String)
    (methods : List (String × Nat)) : RegisterRouters :=
  { r with Routers := r.Routers ++ [⟨path, methods⟩] }

/-- `RegisterRouters.AddRouterFx`: trim the argument; a non-empty trimmed
suffix is appended to `PathFixed`, an empty one leaves `PathFixed` alone. -/
def RegisterRouters.AddRouterFx (r : RegisterRouters) (params : String)
    (methods : List (String × Nat)) : RegisterRouters :=
  let path := goTrimSpace params
  let path := if path.length > 0 then r.PathFixed ++ path else r.PathFixed
  { r with Routers := r.Routers ++ [⟨path, methods⟩] }

/-- `RegisterRouters.GetAllRouters`. -/
def RegisterRouters.GetAllRouters (r : RegisterRouters) : List RegisterRouter :=
  r.Routers

/-- `RegisterRouters.GetRouters`: entries whose path equals `path`. -/
def RegisterRouters.GetRouters (r : RegisterRouters) (path : String) :
    List RegisterRouter :=
  r.Routers.foldl (fun acc router =>
    if router.Path = path then acc ++ [router] else acc) []

/-- `RegisterRouters.GetRoutersFx`: entries whose path contains the fixed
prefix as a substring (`strings.Contains(router.Path, r.PathFixed)`). -/
def RegisterRouters.GetRoutersFx (r : RegisterRouters) : List RegisterRouter :=
  r.Routers.foldl (fun acc router =>
    if goContains router.Path r.PathFixed then acc ++ [router] else acc) []

/-- `RegisterRouters.SetPathFixed`. -/
def RegisterRouters.SetPathFixed (r : RegisterRouters) (path : String) :
    RegisterRouters :=
  { r with PathFixed := path }

/-- One created child scope of the engine: its path segment and its
middleware chain, per the Engine Adapter surface of §6 of the spec. -/
structure GroupState where
  pfx : String
  mw : List Nat
deriving Repr, DecidableEq

/-- The Engine Adapter's observable state: bound `(method, path, handler)`
routes, the top-level middleware chain, and the created child scopes. -/
structure EngineState where
  routes : List (String × String × Nat)
  topMW : List Nat
  groups : List GroupState
deriving Repr, DecidableEq

/-- A resolved scope: the engine's top level, or the `i`-th created group. -/
inductive Scope where
  | top
  | grp (i : Nat)
deriving Repr, DecidableEq

/-- Replace the element at index `i` (no-op out of range). -/
def modifyAt (l : List α) (i : Nat) (f : α → α) : List α :=
  match l, i with
  | [], _ => []
  | a :: rest, 0 => f a :: rest
  | a :: rest, n + 1 => a :: modifyAt rest n f

/-- `echo.Group(name)`: create a fresh child scope with an empty middleware
chain; returns the updated engine and the new scope's index. -/
def echoGroup (e : EngineState) (p : String) : EngineState × Nat :=
  ({ e with groups := e.groups ++ [⟨p, []⟩] }, e.groups.length)

/-- `Use` on the resolved scope: append one middleware to its chain. -/
def useMiddleware (e : EngineState) (sc : Scope) (m : Nat) : EngineState :=
  match sc with
  | .top => { e with topMW := e.topMW ++ [m] }
  | .grp i => { e with groups := modifyAt e.groups i (fun g => { g with mw := g.mw ++ [m] }) }

/-- The effective path prefix of a scope: empty at top level, the group's
segment otherwise (echo binds group routes at `prefix + path`). -/
def scopePrefix (e : EngineState) (sc : Scope) : String :=
  match sc with
  | .top => ""
  | .grp i => (e.groups.getD i ⟨"", []⟩).pfx

/-- The fixed HTTP method set of `registerMethod`'s `switch` (both the
`*echo.Group` and the `*echo.Echo` arm bind exactly these nine). -/
def supportedMethods : List String :=
  ["GET", "POST", "PUT", "DELETE", "PATCH", "HEAD", "CONNECT", "OPTIONS", "TRACE"]

/-- `Server.registerMethod`: a recognized method binds
`(method, scope prefix ++ path, handler)` on the engine; any other method
string yields the `unsupported method` error and binds nothing. -/
def registerMethod (e : EngineState) (sc : Scope) (method path : String)
    (handler : Nat) : EngineState × Option String :=
  if supportedMethods.contains method then
    ({ e with routes := e.routes ++ [(method, scopePrefix e sc ++ path, handler)] }, none)
  else
    (e, some ("unsupported method: " ++ method))

/-- The inner loop of `registerRouters` over one entry's method map:
bind each pair in turn, returning at the first error. -/
def bindMethods (e : EngineState) (sc : Scope) (path : String) :
    List (String × Nat) → EngineState × Option String
  | [] => (e, none)
  | (m, h) :: rest =>
    match registerMethod e sc m path h with
    | (e1, none) => bindMethods e1 sc path rest
    | (e1, some err) => (e1, some err)

/-- The outer loop of `registerRouters` over the spec's entries. -/
def bindEntries (e : EngineState) (sc : Scope) :
    List RegisterRouter → EngineState × Option String
  | [] => (e, none)
  | entry :: rest =>
    match bindMethods e sc entry.Path entry.Methods with
    | (e1, none) => bindEntries e1 sc rest
    | (e1, some err) => (e1, some err)

/-- The first loop of `registerRouters`: `Use` each middleware in order on
the resolved scope. -/
def applyMiddlewares (e : EngineState) (sc : Scope) (mws : List Nat) :
    EngineState :=
  mws.foldl (fun acc m => useMiddleware acc sc m) e

/-- `Server.registerRouters`: apply every middleware to the scope in order,
then bind all entries.  The Go code only reads the spec through
`GetAllRouters`, so the spec the caller's pointer refers to afterwards is
returned as the second component. -/
def registerRouters (e : EngineState) (sc : Scope) (routers : RegisterRouters)
    (mws : List Nat) : EngineState × RegisterRouters × Option String :=
  let e1 := applyMiddlewares e sc mws
  let out := bindEntries e1 sc routers.GetAllRouters
  (out.1, routers, out.2)

/-- `Server.RegisterRouters`: the `switch` on the group.  `ROOT` targets the
engine itself; `V1 .. DOCS` create the child scope named `group.String()`;
anything else is rejected with `invalid group type` before any effect. -/
def ServerRegisterRouters (e : EngineState) (group : Int)
    (routers : RegisterRouters) (mws : List Nat) :
    EngineState × RegisterRouters × Option String :=
  if group = 0 then
    registerRouters e Scope.top routers mws
  else if group = 1 ∨ group = 2 ∨ group = 3 ∨ group = 4 ∨ group = 5 ∨ group = 6 then
    let eg := echoGroup e ((kindString group).getD "")
    registerRouters eg.1 (Scope.grp eg.2) routers mws
  else
    (e, routers, some "invalid group type")

/-- The `(method, path, handler)` triples of a spec's entries, flattened in
the order the two nested loops of `registerRouters` visit them. -/
def flatEntries : List RegisterRouter → List (String × String × Nat)
  | [] => []
  | e :: rest => e.Methods.map (fun mh => (mh.1, e.Path, mh.2)) ++ flatEntries rest

/-- The nested loops of `registerRouters`, rephrased on the flattened triple
list: bind each triple in turn, returning at the first error. -/
def bindFlat (e : EngineState) (sc : Scope) :
    List (String × String × Nat) → EngineState × Option String
  | [] => (e, none)
  | (m, p, h) :: rest =>
    match registerMethod e sc m p h with
    | (e1, none) => bindFlat e1 sc rest
    | (e1, some err) => (e1, some err)

/-- A fresh engine: no routes, no middleware, no scopes. -/
def engEx : EngineState := ⟨[], [], []⟩

/-- An empty route spec. -/
def specEx : RegisterRouters := ⟨"", []⟩

/-- A spec whose single entry carries a supported method, then an
unrecognized one, then another supported one. -/
def specBad : RegisterRouters :=
  ⟨"", [⟨"/p", [("GET", 1), ("FOO", 2), ("POST", 3)]⟩]⟩

/-- A spec with fixed prefix `/api`. -/
def specApi : RegisterRouters := NewRouters.SetPathFixed "/api"

lemma string_length_zero {s : String} (h : s.length = 0) : s = "" := by
  cases s with
  | mk d =>
    have hd : d = [] := by simpa [String.length] using h
    exact congrArg String.mk hd

lemma string_append_empty (s : String) : s ++ "" = s := by
  apply String.ext
  simp [String.data_append]

lemma goTrimSpace_of_all_space {s : String}
    (h : ∀ c ∈ s.data, goIsSpace c = true) : goTrimSpace s = "" := by
  unfold goTrimSpace
  have h1 : s.data.dropWhile goIsSpace = [] := List.dropWhile_eq_nil_iff.mpr h
  rw [h1]
  rfl

lemma serverRegister_invalid (e : EngineState) (r : RegisterRouters)
    (mws : List Nat) (k : Int) (hk : ¬ (0 ≤ k ∧ k ≤ 6)) :
    ServerRegisterRouters e k r mws = (e, r, some "invalid group type") := by
  have h0 : ¬ k = 0 := by omega
  have h1 : ¬ (k = 1 ∨ k = 2 ∨ k = 3 ∨ k = 4 ∨ k = 5 ∨ k = 6) := by omega
  simp only [ServerRegisterRouters, if_neg h0, if_neg h1]

/-- Claim C4: `AddRouterFx` stores the fixed prefix concatenated with the
whitespace-trimmed suffix when the suffix is non-empty and the fixed prefix
alone when it is empty; in particular with prefix `/api` the suffix `""`
yields path `/api` and the suffix `/x` yields path `/api/x`. -/
theorem claim4 (r : RegisterRouters) (s : String) (ms : List (String × Nat)) :
    (s ≠ "" → (r.AddRouterFx s ms).Routers =
      r.Routers ++ [⟨r.PathFixed ++ goTrimSpace s, ms⟩]) ∧
    (s = "" → (r.AddRouterFx s ms).Routers =
      r.Routers ++ [⟨r.PathFixed, ms⟩]) ∧
    (specApi.AddRouterFx "" ms).Routers = [⟨"/api", ms⟩] ∧
    (specApi.AddRouterFx "/x" ms).Routers = [⟨"/api/x", ms⟩] := by
  refine ⟨?_, ?_, ?_, ?_⟩
  · intro _
    unfold RegisterRouters.AddRouterFx
    by_cases hl : (goTrimSpace s).length > 0
    · simp [hl]
    · have h0 : (goTrimSpace s).length = 0 := by omega
      have he : goTrimSpace s = "" := string_length_zero h0
      simp [hl, he, string_append_empty]
  · intro hs
    subst hs
    rfl
  · rfl
  · rfl

/-- Claim C9: a suffix that is non-empty but consists only of whitespace
trims to empty, so `AddRouterFx` stores the fixed prefix exactly, with no
suffix text appended. -/
theorem claim9 (r : RegisterRouters) (ms : List (String × Nat)) (s : String)
    (_hne : s ≠ "") (hsp : ∀ c ∈ s.data, goIsSpace c = true) :
    (r.AddRouterFx s ms).Routers = r.Routers ++ [⟨r.PathFixed, ms⟩] := by
  unfold RegisterRouters.AddRouterFx
  rw [goTrimSpace_of_all_space hsp]
  rfl

/-- Witness for C9 at a whitespace-only suffix mixing a space, an en quad
(U+2000) and an ideographic space (U+3000). -/
theorem claim9_witness :
    (specApi.AddRouterFx "  　" [("GET", 1)]).Routers =
      specApi.Routers ++ [⟨"/api", [("GET", 1)]⟩] :=
  claim9 specApi [("GET", 1)] "  　" (by decide) (by decide)

/-- Witness for C4 at suffix `/x` on the empty spec. -/
theorem claim4_witness :
    (specEx.AddRouterFx "/x" [("GET", 1)]).Routers =
      specEx.Routers ++ [⟨specEx.PathFixed ++ goTrimSpace "/x", [("GET", 1)]⟩] :=
  (claim4 specEx "/x" [("GET", 1)]).1 (by decide)

/-- Claim C6: `SetPathFixed` rewrites only the stored prefix; every
already-appended entry, its path included, is untouched. -/
theorem claim6 (r : RegisterRouters) (p : String) :
    (r.SetPathFixed p).Routers = r.Routers := rfl

/-- Claim C2: an out-of-range group is rejected with the invalid-group
error and the engine — routes, middleware, scopes — is exactly as before. -/
theorem claim2 (e : EngineState) (r : RegisterRouters) (mws : List Nat)
    (k : Int) (hk : ¬ (0 ≤ k ∧ k ≤ 6)) :
    ServerRegisterRouters e k r mws = (e, r, some "invalid group type") :=
  serverRegister_invalid e r mws k hk

/-- Witness for C2 at group 999. -/
theorem claim2_witness :
    ServerRegisterRouters engEx 999 specEx [] =
      (engEx, specEx, some "invalid group type") :=
  claim2 engEx specEx [] 999 (by decide)

/-- Claim C5: `registerMethod` succeeds exactly on the nine fixed HTTP
methods, on either scope, and fails with the unsupported-method error,
binding nothing, on every other method string. -/
theorem claim5 (e : EngineState) (sc : Scope) (m p : String) (h : Nat) :
    ((registerMethod e sc m p h).2 = none ↔ m ∈ supportedMethods) ∧
    (m ∉ supportedMethods →
      registerMethod e sc m p h = (e, some ("unsupported method: " ++ m))) := by
  by_cases hm : m ∈ supportedMethods
  · have hc : supportedMethods.contains m = true := List.elem_iff.mpr hm
    simp [registerMethod, hc, hm]
  · have hc : ¬ supportedMethods.contains m = true :=
      fun hx => hm (List.elem_iff.mp hx)
    simp [registerMethod, hc, hm]

/-- Witness for C5 at the unrecognized method `FOO`. -/
theorem claim5_witness :
    registerMethod engEx Scope.top "FOO" "/a" 5 =
      (engEx, some ("unsupported method: " ++ "FOO")) :=
  (claim5 engEx Scope.top "FOO" "/a" 5).2 (by decide)

/-- Claim C8: registration returns the route spec exactly as it received
it — the registrar only reads the spec, for every group, valid or not, and
whether or not the call fails. -/
theorem claim8 (e : EngineState) (k : Int) (r : RegisterRouters)
    (mws : List Nat) : (ServerRegisterRouters e k r mws).2.1 = r := by
  unfold ServerRegisterRouters
  split
  · rfl
  · split
    · rfl
    · rfl

lemma isPrefixL_iff (p l : List Char) :
    isPrefixL p l = true ↔ ∃ t, l = p ++ t := by
  induction p generalizing l with
  | nil =>
    simp only [isPrefixL, List.nil_append, true_iff]
    exact ⟨l, rfl⟩
  | cons a as ih =>
    cases l with
    | nil =>
      simp [isPrefixL]
    | cons b bs =>
      simp only [isPrefixL, Bool.and_eq_true, decide_eq_true_eq, ih]
      constructor
      · rintro ⟨rfl, t, rfl⟩
        exact ⟨t, rfl⟩
      · rintro ⟨t, ht⟩
        injection ht with h1 h2
        exact ⟨h1.symm, t, h2⟩

lemma containsL_iff (sub l : List Char) :
    containsL sub l = true ↔ ∃ pre post, l = pre ++ sub ++ post := by
  induction l with
  | nil =>
    simp only [containsL, List.isEmpty_iff]
    constructor
    · rintro rfl
      exact ⟨[], [], rfl⟩
    · rintro ⟨pre, post, h⟩
      rcases List.append_eq_nil.mp h.symm with ⟨h1, h2⟩
      exact (List.append_eq_nil.mp h1).2
  | cons c cs ih =>
    simp only [containsL, Bool.or_eq_true, isPrefixL_iff, ih]
    constructor
    · rintro (⟨t, ht⟩ | ⟨pre, post, h⟩)
      · exact ⟨[], t, by simpa using ht⟩
      · exact ⟨c :: pre, post, by simp [h]⟩
    · rintro ⟨pre, post, h⟩
      cases pre with
      | nil =>
        left
        exact ⟨post, by simpa using h⟩
      | cons d ds =>
        right
        rw [List.cons_append, List.cons_append] at h
        injection h with h1 h2
        exact ⟨ds, post, h2⟩

lemma foldl_ifappend_eq_filter (p : α → Bool) (l acc : List α) :
    l.foldl (fun a x => if p x then a ++ [x] else a) acc = acc ++ l.filter p := by
  induction l generalizing acc with
  | nil => simp
  | cons x xs ih =>
    simp only [List.foldl_cons, List.filter_cons]
    by_cases hp : p x <;> simp [hp, ih]

/-- Claim C7: `GetRoutersFx` keeps, in insertion order, exactly the entries
whose path contains the stored fixed prefix as a substring anywhere — the
match is unanchored, so a path that merely mentions the prefix text in the
middle also qualifies. -/
theorem claim7 (r : RegisterRouters) :
    r.GetRoutersFx = r.Routers.filter (fun e => goContains e.Path r.PathFixed) ∧
    ∀ s sub : String, goContains s sub = true ↔
      ∃ pre post : List Char, s.data = pre ++ sub.data ++ post := by
  constructor
  · unfold RegisterRouters.GetRoutersFx
    rw [foldl_ifappend_eq_filter]
    simp
  · intro s sub
    exact containsL_iff sub.data s.data

/-- Witness for C7: `/xx/api/y` contains `/api` in the middle, so the
unanchored filter keeps it. -/
theorem claim7_witness :
    ∃ pre post : List Char,
      ("/xx/api/y" : String).data = pre ++ ("/api" : String).data ++ post :=
  ((claim7 specEx).2 "/xx/api/y" "/api").mp (by decide)

lemma bindFlat_append (e : EngineState) (sc : Scope)
    (l1 l2 : List (String × String × Nat)) :
    bindFlat e sc (l1 ++ l2) =
      match bindFlat e sc l1 with
      | (e1, none) => bindFlat e1 sc l2
      | (e1, some err) => (e1, some err) := by
  induction l1 generalizing e with
  | nil => simp [bindFlat]
  | cons t rest ih =>
    obtain ⟨m, p, h⟩ := t
    simp only [List.cons_append, bindFlat]
    rcases hr : registerMethod e sc m p h with ⟨e1, err⟩
    cases err with
    | none => simpa using ih e1
    | some err => simp

lemma bindMethods_eq_bindFlat (e : EngineState) (sc : Scope) (p : String)
    (ms : List (String × Nat)) :
    bindMethods e sc p ms = bindFlat e sc (ms.map (fun mh => (mh.1, p, mh.2))) := by
  induction ms generalizing e with
  | nil => rfl
  | cons mh rest ih =>
    obtain ⟨m, h⟩ := mh
    simp only [bindMethods, List.map_cons, bindFlat]
    rcases hr : registerMethod e sc m p h with ⟨e1, err⟩
    cases err with
    | none => simpa using ih e1
    | some err => simp

lemma bindEntries_eq_bindFlat (e : EngineState) (sc : Scope)
    (l : List RegisterRouter) :
    bindEntries e sc l = bindFlat e sc (flatEntries l) := by
  induction l generalizing e with
  | nil => rfl
  | cons entry rest ih =>
    simp only [bindEntries, flatEntries, bindFlat_append, bindMethods_eq_bindFlat]
    cases hr : bindFlat e sc (List.map (fun mh => (mh.1, entry.Path, mh.2)) entry.Methods) with
    | mk e1 err => cases err <;> simp [ih]

lemma registerMethod_frame (e : EngineState) (sc : Scope) (m p : String)
    (h : Nat) :
    ((registerMethod e sc m p h).1).groups = e.groups ∧
    ((registerMethod e sc m p h).1).topMW = e.topMW := by
  unfold registerMethod
  split <;> simp

lemma bindFlat_frame (e : EngineState) (sc : Scope)
    (l : List (String × String × Nat)) :
    ((bindFlat e sc l).1).groups = e.groups ∧
    ((bindFlat e sc l).1).topMW = e.topMW := by
  induction l generalizing e with
  | nil => simp [bindFlat]
  | cons t rest ih =>
    obtain ⟨m, p, h⟩ := t
    have hf := registerMethod_frame e sc m p h
    simp only [bindFlat]
    rcases hr : registerMethod e sc m p h with ⟨e1, err⟩
    rw [hr] at hf
    cases err with
    | none =>
      have h2 := ih e1
      exact ⟨h2.1.trans hf.1, h2.2.trans hf.2⟩
    | some err => simpa using hf

lemma scopePrefix_routes (e : EngineState) (sc : Scope)
    (rs : List (String × String × Nat)) :
    scopePrefix ({ e with routes := rs }) sc = scopePrefix e sc := by
  cases sc <;> rfl

lemma bindFlat_ok (e : EngineState) (sc : Scope)
    (l : List (String × String × Nat))
    (h : ∀ t ∈ l, supportedMethods.contains t.1 = true) :
    bindFlat e sc l =
      ({ e with routes := (e.routes ++
          l.map (fun u => (u.1, scopePrefix e sc ++ u.2.1, u.2.2))) }, none) := by
  induction l generalizing e with
  | nil => simp [bindFlat]
  | cons t rest ih =>
    obtain ⟨m, p, hd⟩ := t
    have hm : supportedMethods.contains m = true := h (m, p, hd) (by simp)
    simp only [bindFlat, registerMethod, if_pos hm]
    rw [ih _ (fun u hu => h u (by simp [hu]))]
    simp [scopePrefix_routes]

lemma bindFlat_split (e : EngineState) (sc : Scope)
    (pre : List (String × String × Nat)) (t : String × String × Nat)
    (rest : List (String × String × Nat))
    (hpre : ∀ u ∈ pre, supportedMethods.contains u.1 = true)
    (ht : supportedMethods.contains t.1 = false) :
    bindFlat e sc (pre ++ t :: rest) =
      ({ e with routes := (e.routes ++
          pre.map (fun u => (u.1, scopePrefix e sc ++ u.2.1, u.2.2))) },
        some ("unsupported method: " ++ t.1)) := by
  rw [bindFlat_append, bindFlat_ok e sc pre hpre]
  obtain ⟨m, p, hd⟩ := t
  simp only at ht
  have hcond : ¬ (supportedMethods.contains m = true) := by
    intro hx
    rw [hx] at ht
    exact Bool.noConfusion ht
  show bindFlat ({ e with routes := (e.routes ++
      pre.map (fun u => (u.1, scopePrefix e sc ++ u.2.1, u.2.2))) }) sc
      ((m, p, hd) :: rest) = _
  simp only [bindFlat, registerMethod, if_neg hcond]

/-- Claim C3: when the flattened `(method, path, handler)` sequence of a
spec has a first unrecognized method, registration applies the middlewares,
binds exactly the triples before the failing one, stops there, and returns
the unsupported-method error for that method — earlier bindings are kept,
later ones are never attempted. -/
theorem claim3 (e : EngineState) (sc : Scope) (r : RegisterRouters)
    (mws : List Nat)
    (pre : List (String × String × Nat)) (t : String × String × Nat)
    (rest : List (String × String × Nat))
    (hsplit : flatEntries r.Routers = pre ++ t :: rest)
    (hpre : ∀ u ∈ pre, supportedMethods.contains u.1 = true)
    (ht : supportedMethods.contains t.1 = false) :
    registerRouters e sc r mws =
      ({ applyMiddlewares e sc mws with
          routes := ((applyMiddlewares e sc mws).routes ++
            pre.map (fun u =>
              (u.1, scopePrefix (applyMiddlewares e sc mws) sc ++ u.2.1, u.2.2))) },
        r, some ("unsupported method: " ++ t.1)) := by
  simp only [registerRouters, RegisterRouters.GetAllRouters,
    bindEntries_eq_bindFlat, hsplit,
    bindFlat_split _ _ _ _ _ hpre ht]

/-- Witness for C3: on `specBad` the `GET` binding sticks, `FOO` fails the
call, `POST` is never bound. -/
theorem claim3_witness :
    registerRouters engEx Scope.top specBad [] =
      ({ engEx with routes := [("GET", "/p", 1)] }, specBad,
        some "unsupported method: FOO") := by
  have h := claim3 engEx Scope.top specBad []
    [("GET", "/p", 1)] ("FOO", "/p", 2) [("POST", "/p", 3)]
    (by decide) (by decide) (by decide)
  exact h.trans (by decide)

lemma applyMiddlewares_top (e : EngineState) (mws : List Nat) :
    applyMiddlewares e Scope.top mws = { e with topMW := e.topMW ++ mws } := by
  induction mws generalizing e with
  | nil => simp [applyMiddlewares]
  | cons m rest ih =>
    show applyMiddlewares (useMiddleware e Scope.top m) Scope.top rest = _
    rw [ih]
    simp [useMiddleware]

lemma modifyAt_append_length (l : List α) (g : α) (f : α → α) :
    modifyAt (l ++ [g]) l.length f = l ++ [f g] := by
  induction l with
  | nil => rfl
  | cons a rest ih => simp [modifyAt, ih]

lemma applyMiddlewares_grp (e : EngineState) (l : List GroupState)
    (g : GroupState) (mws : List Nat) (hg : e.groups = l ++ [g]) :
    applyMiddlewares e (Scope.grp l.length) mws =
      { e with groups := l ++ [{ g with mw := g.mw ++ mws }] } := by
  induction mws generalizing e g with
  | nil =>
    show e = _
    cases e
    simp only at hg
    simp [hg]
  | cons m rest ih =>
    show applyMiddlewares (useMiddleware e (Scope.grp l.length) m)
      (Scope.grp l.length) rest = _
    have h1 : (useMiddleware e (Scope.grp l.length) m).groups =
        l ++ [{ g with mw := g.mw ++ [m] }] := by
      simp [useMiddleware, hg, modifyAt_append_length]
    rw [ih _ _ h1]
    cases e
    simp [useMiddleware]

lemma bindEntries_frame (e : EngineState) (sc : Scope)
    (l : List RegisterRouter) :
    ((bindEntries e sc l).1).groups = e.groups ∧
    ((bindEntries e sc l).1).topMW = e.topMW := by
  rw [bindEntries_eq_bindFlat]
  exact bindFlat_frame e sc (flatEntries l)

/-- Claim C10: on a valid group, all supplied middlewares are attached to
the resolved scope — the engine's top level for root, the freshly created
child scope otherwise — and they stay attached whatever the binding phase
then does, in particular when it fails with an unsupported-method error. -/
theorem claim10 (e : EngineState) (r : RegisterRouters) (mws : List Nat)
    (k : Int) (hk0 : 0 ≤ k) (hk6 : k ≤ 6) :
    ((ServerRegisterRouters e k r mws).1).topMW =
      (if k = 0 then e.topMW ++ mws else e.topMW) ∧
    ((ServerRegisterRouters e k r mws).1).groups =
      (if k = 0 then e.groups
        else e.groups ++ [⟨(kindString k).getD "", mws⟩]) := by
  by_cases h0 : k = 0
  · subst h0
    have hsr : ServerRegisterRouters e 0 r mws =
        registerRouters e Scope.top r mws := rfl
    rw [hsr]
    simp only [registerRouters]
    rw [applyMiddlewares_top]
    refine ⟨?_, ?_⟩
    · rw [(bindEntries_frame _ _ _).2]
      simp
    · rw [(bindEntries_frame _ _ _).1]
      simp
  · have h1 : k = 1 ∨ k = 2 ∨ k = 3 ∨ k = 4 ∨ k = 5 ∨ k = 6 := by omega
    have hsr : ServerRegisterRouters e k r mws =
        registerRouters (echoGroup e ((kindString k).getD "")).1
          (Scope.grp (echoGroup e ((kindString k).getD "")).2) r mws := by
      simp only [ServerRegisterRouters, if_neg h0, if_pos h1]
    rw [hsr]
    simp only [registerRouters, echoGroup]
    rw [applyMiddlewares_grp _ e.groups ⟨(kindString k).getD "", []⟩ mws (by simp)]
    refine ⟨?_, ?_⟩
    · rw [(bindEntries_frame _ _ _).2]
      simp [h0]
    · rw [(bindEntries_frame _ _ _).1]
      simp [h0]

/-- Witness for C10: registering `specBad` under `V1` with middlewares
7 and 8 fails with the unsupported-method error, yet the created `v1`
scope still carries both middlewares. -/
theorem claim10_witness :
    ((ServerRegisterRouters engEx 1 specBad [7, 8]).1).topMW =
      (if (1 : Int) = 0 then engEx.topMW ++ [7, 8] else engEx.topMW) ∧
    ((ServerRegisterRouters engEx 1 specBad [7, 8]).1).groups =
      (if (1 : Int) = 0 then engEx.groups
        else engEx.groups ++ [⟨(kindString 1).getD "", [7, 8]⟩]) :=
  claim10 engEx specBad [7, 8] 1 (by decide) (by decide)

/-- Claim C1: every non-root value of the closed enumeration has a
non-empty scope name, the names of the enumeration are pairwise distinct,
the root value resolves to the engine's no-prefix top level, and a value
outside the enumeration is rejected with the invalid-group error by the
registrar — the raw name lookup, which would panic (`none`), is never
consulted and no default name is substituted. -/
theorem claim1 :
    (∀ k : Int, 1 ≤ k → k ≤ 6 → ∃ s, kindString k = some s ∧ s ≠ "") ∧
    (∀ j k : Int, 0 ≤ j → j ≤ 6 → 0 ≤ k → k ≤ 6 → j ≠ k →
      kindString j ≠ kindString k) ∧
    (∀ e : EngineState, scopePrefix e Scope.top = "") ∧
    (∀ (e : EngineState) (r : RegisterRouters) (mws : List Nat),
      ServerRegisterRouters e 0 r mws = registerRouters e Scope.top r mws) ∧
    (∀ k : Int, ¬ (0 ≤ k ∧ k ≤ 6) →
      kindString k = none ∧
      ∀ (e : EngineState) (r : RegisterRouters) (mws : List Nat),
        ServerRegisterRouters e k r mws = (e, r, some "invalid group type")) := by
  refine ⟨?_, ?_, ?_, ?_, ?_⟩
  · intro k h1 h6
    interval_cases k <;> exact ⟨_, rfl, by decide⟩
  · intro j k hj0 hj6 hk0 hk6 hjk
    interval_cases j <;> interval_cases k <;> first | (exact absurd rfl hjk) | decide
  · intro e
    rfl
  · intro e r mws
    rfl
  · intro k hk
    refine ⟨?_, fun e r mws => serverRegister_invalid e r mws k hk⟩
    have h7 : ¬ (0 ≤ k ∧ k < 7) := by omega
    simp only [kindString, if_neg h7]

/-- Witness for C1: `V1`'s name is the non-empty `v1`, and group 99 is
outside the enumeration, has no name, and is rejected. -/
theorem claim1_witness :
    (∃ s, kindString 1 = some s ∧ s ≠ "") ∧
    kindString 99 = none ∧
    ServerRegisterRouters engEx 99 specEx [] =
      (engEx, specEx, some "invalid group type") := by
  refine ⟨claim1.1 1 (by decide) (by decide), ?_, ?_⟩
  · exact (claim1.2.2.2.2 99 (by decide)).1
  · exact (claim1.2.2.2.2 99 (by decide)).2 engEx specEx []
